import Mathlib

/-!
Verification of the chapter/title arithmetic core of parsedvd's IsoFileCore
(src/parsedvd/IsoFileCore.py).  The decoded video clip is modelled as a list
of frames; Python slicing, negative indexing and itertools.accumulate are
embedded explicitly.  CPython list aliasing in split_titles (the joined
chapter list is the same object as split_chapters[0], extended in place by
the join loop) is modelled by applyAlias.
-/

namespace ParseDVD

set_option maxRecDepth 100000

variable {α : Type} {β : Type}

/-- Python slice endpoint normalisation for a list of length n: a negative
index counts from the end and is clamped below at 0; a non-negative index is
clamped above at n. -/
def pyIndex (n : Nat) (i : Int) : Nat :=
  if i < 0 then ((n : Int) + i).toNat else min i.toNat n

/-- Python slice xs[s:e] (step 1), with full negative-index and clamping
semantics. -/
def pySlice (xs : List β) (s e : Int) : List β :=
  (xs.take (pyIndex xs.length e)).drop (pyIndex xs.length s)

/-- Python list indexing xs[i]: negative indices count from the end;
out-of-range access is an IndexError, modelled as none. -/
def pyGet (xs : List β) (i : Int) : Option β :=
  if i < 0 then
    if (xs.length : Int) + i < 0 then Option.none
    else xs.get? ((xs.length : Int) + i).toNat
  else xs.get? i.toNat

/-- Running sums helper: accFrom t xs is the list of partial sums of xs, each
shifted by t. -/
def accFrom (t : Int) : List Int → List Int
  | [] => []
  | x :: xs => (t + x) :: accFrom (t + x) xs

/-- itertools.accumulate: running cumulative sums (same length as the
input). -/
def accumulate (xs : List Int) : List Int := accFrom 0 xs

/-- Rational frame rate (fps.numerator / fps.denominator). -/
structure Fraction where
  num : Int
  den : Int
deriving DecidableEq, Repr

/-- One decoded IFO playback-time record: hours/minutes/seconds/frames plus
the frame-rate code (pb_time.fps). -/
structure PlaybackTime where
  hours : Int
  minutes : Int
  seconds : Int
  frames : Int
  fps : Nat
deriving DecidableEq, Repr

/-- One program chain: the ordered playback times of its chapter marks. -/
structure ProgramChain where
  playback_times : List PlaybackTime
deriving DecidableEq, Repr

/-- Result record of get_ifo_info. -/
structure IFOFileInfo where
  chapters : List (List Int)
  fps : Fraction
  m_ifos : Bool
deriving DecidableEq, Repr

/-- Modelled from the spec: the collaborator lookup table vts_ifo.FRAMERATE
(pyparsedvd, not under src/) maps a frame-rate code to a rational frame rate
in the 25 fps or 29.97 fps (30000/1001) families. -/
def FRAMERATE (code : Nat) : Fraction :=
  if code = 1 then ⟨25, 1⟩ else ⟨30000, 1001⟩

/-- The program chains processed by get_ifo_info: one decoded chain list per
IFO file; when more than one IFO file is present the first chain of each
file (the title-set menu) is skipped. -/
def programChains (ifoFiles : List (List ProgramChain)) : List ProgramChain :=
  (ifoFiles.map (fun pgci => pgci.drop (if 1 < ifoFiles.length then 1 else 0))).flatten

/-- Per-playback-time absolute frame offsets:
frames + (hours*3600 + minutes*60 + seconds) * raw_fps. -/
def frameOffsets (raw_fps : Int) (pts : List PlaybackTime) : List Int :=
  pts.map fun pb =>
    pb.frames + (pb.hours * 3600 + pb.minutes * 60 + pb.seconds) * raw_fps

/-- One loop iteration of get_ifo_info over a program chain: check that all
frame-rate codes agree (else the VFR ValueError), resolve the frame rate and
produce the per-chapter frame list with a leading 0.  An empty playback-time
list hits the IndexError of dvd_fps_s[0]. -/
def stepProg (prog : ProgramChain) : Except String (Fraction × List Int) :=
  match prog.playback_times.map (fun pb => pb.fps) with
  | [] => Except.error "IndexError"
  | c :: cs =>
    if (c :: cs).all (fun d => c = d) then
      let fps := FRAMERATE c
      let raw_fps : Int := if fps.num = 30000 then 30 else 25
      Except.ok (fps, 0 :: frameOffsets raw_fps prog.playback_times)
    else Except.error "IsoFile: No VFR allowed!"

/-- The get_ifo_info loop over all program chains, threading the fps variable
(last computed chain wins, default 30000/1001). -/
def processChains : List ProgramChain → Fraction → Except String (Fraction × List (List Int))
  | [], fps => Except.ok (fps, [])
  | prog :: rest, _fps =>
    match stepProg prog with
    | Except.error e => Except.error e
    | Except.ok (fps2, ch) =>
      match processChains rest fps2 with
      | Except.error e => Except.error e
      | Except.ok (fpsF, chs) => Except.ok (fpsF, ch :: chs)

/-- get_ifo_info: decode all program chains of the given IFO files into
cumulative chapter boundaries.  The input is the decoded chain list of each
IFO file (sorted order, VIDEO_TS sentinel excluded), since the binary decode
is a collaborator. -/
def get_ifo_info (ifoFiles : List (List ProgramChain)) : Except String IFOFileInfo :=
  match processChains (programChains ifoFiles) ⟨30000, 1001⟩ with
  | Except.error e => Except.error e
  | Except.ok (fps, split_chapters) =>
    Except.ok ⟨split_chapters.map accumulate, fps, decide (1 < ifoFiles.length)⟩

/-- __split_chapters_clips: cut the decoded clip (minus a leading menu of
dvd_menu_length frames) into one sub-clip per title at the cumulative
last-boundary split points; when a menu exists, append it as a final entry
with boundaries [0, dvd_menu_length].  (frame[-1] raises on an empty chapter
list in Python; modelled with default 0, never reached on the valid inputs
considered here.) -/
def splitChaptersClips (clip : List α) (split_chapters : List (List Int))
    (dvd_menu_length : Nat) : List (List Int) × List (List α) :=
  let durations := accumulate (0 :: split_chapters.map (fun frame => frame.getLastD 0))
  let clip1 := clip.drop dvd_menu_length
  let clips := (durations.zip durations.tail).map fun se => pySlice clip1 se.1 se.2
  if dvd_menu_length ≠ 0 then
    (split_chapters ++ [[0, (dvd_menu_length : Int)]], clips ++ [clip.take dvd_menu_length])
  else (split_chapters, clips)

/-- __gen_joined_clip: concatenate all sub-clips in order.  (Python raises
IndexError on an empty clip list; modelled as the empty clip.) -/
def gen_joined_clip (cs : List (List α)) : List α :=
  match cs with
  | [] => []
  | c0 :: rest => rest.foldl (fun a b => a ++ b) c0

/-- One step of __gen_joined_chapts: append the next title's non-zero
boundaries shifted by the current last merged value.  (joined_chapters[-1]
on an empty list would raise in Python; modelled with default 0.) -/
def joinStep (acc : List Int) (rrange : List Int) : List Int :=
  acc ++ (rrange.filter (fun r => decide (r ≠ 0))).map (fun r => r + acc.getLastD 0)

/-- __gen_joined_chapts: merge the per-title boundary lists.  (Python raises
IndexError on an empty list of titles; modelled as the empty list.) -/
def gen_joined_chapts (spl : List (List Int)) : List Int :=
  match spl with
  | [] => []
  | c0 :: rest => rest.foldl joinStep c0

/-- CPython aliasing in split_titles: joined_chapters is bound to the same
list object as split_chapters[0] and the join loop extends it in place, so
after joining, split_chapters[0] holds the merged list. -/
def applyAlias (sc : List (List Int)) (joined : List Int) : List (List Int) :=
  match sc with
  | [] => []
  | _ :: rest => joined :: rest

/-- Inner correction loop of the safe_indices branch: walk one title's
boundaries; keep each boundary b with b + offset < num_frames; at the first
violation append the synthetic end boundary and stop (true = the inner break
happened). -/
def correctTitle (ch : List Int) (offset : Int) (n : Nat) (formula : Int) :
    List Int × Bool :=
  match ch with
  | [] => ([], false)
  | x :: rest =>
    if x + offset < (n : Int) then
      let r := correctTitle rest offset n formula
      (x :: r.1, r.2)
    else ([formula], true)

/-- Set m consecutive entries of arr, starting at index a, to [0, 1]
(the placeholder written for titles after the break). -/
def setZeroOne : List (List Int) → Nat → Nat → List (List Int)
  | arr, _, 0 => arr
  | arr, a, m + 1 => setZeroOne (arr.set a [0, 1]) (a + 1) m

/-- Outer correction loop of the safe_indices branch over the remaining
titles, with running title index and frame offset; arr is the result array
(initialised to empty lists).  On a break: the current title keeps its
corrected list, every later title up to the menu becomes [0, 1], and the
menu entry (when present) is restored to the pre-correction last entry. -/
def correctOuter (n menu total : Nat) (scLast : List Int) :
    List (List Int) → Nat → Int → List (List Int) → List (List Int)
  | [], _, _, arr => arr
  | ch :: rest, i, offset, arr =>
    let formula : Int := (n : Int) - (menu : Int) - (total : Int) + (i : Int) + 2
    let r := correctTitle ch offset n formula
    if r.2 then
      let arr2 := setZeroOne (arr.set i r.1) (i + 1)
        ((total - (if 0 < menu then 1 else 0)) - (i + 1))
      if 0 < menu then arr2.set (total - 1) scLast else arr2
    else
      correctOuter n menu total scLast rest (i + 1) (offset + ch.getLastD 0) (arr.set i r.1)

/-- The whole safe_indices correction pass over the (post-aliasing) split
chapter lists. -/
def correctChapters (sc : List (List Int)) (n : Nat) (menu : Nat) : List (List Int) :=
  correctOuter n menu sc.length (sc.getLastD []) sc 0 0 (List.replicate sc.length [])

/-- Frames consumed before title i: the sum of the last boundaries of the
titles before it (the running offset of the correction loop). -/
def chapterOffset (sc : List (List Int)) (i : Nat) : Int :=
  ((sc.take i).map (fun ch => ch.getLastD 0)).sum

/-- The value tuple produced by split_titles. -/
structure SplitTitlesResult (α : Type) where
  split_clips : List (List α)
  split_chapters : List (List Int)
  joined_clip : List α
  joined_chapters : List Int
  broken_warning : Bool
deriving DecidableEq, Repr

/-- split_titles: split the decoded clip per title, join the result, and when
the final merged boundary exceeds the decoded frame count either warn
(default) or, with safe_indices, correct the boundaries and re-split. -/
def split_titles (clip : List α) (ifo_chapters : List (List Int))
    (dvd_menu_length : Nat) (safe_indices : Bool) : SplitTitlesResult α :=
  let fp := splitChaptersClips clip ifo_chapters dvd_menu_length
  let joined_clip1 := gen_joined_clip fp.2
  let joined_ch1 := gen_joined_chapts fp.1
  let sc1 := applyAlias fp.1 joined_ch1
  if (clip.length : Int) < joined_ch1.getLastD 0 then
    if safe_indices then
      let corrected := correctChapters sc1 clip.length dvd_menu_length
      let sp := splitChaptersClips clip
        (if dvd_menu_length = 0 then corrected else corrected.dropLast) dvd_menu_length
      let joined_ch2 := gen_joined_chapts sp.1
      ⟨sp.2, applyAlias sp.1 joined_ch2, gen_joined_clip sp.2, joined_ch2, false⟩
    else
      ⟨fp.2, sc1, joined_clip1, joined_ch1, true⟩
  else
    ⟨fp.2, sc1, joined_clip1, joined_ch1, false⟩

/-- The dvd_menu_length derivation from index metadata: when the first video
segment's declared size exceeds 2 shifted left by 12, the menu length is the
number of frame-data records, else 0. -/
def dvdMenuLength (vts_0_size frameDataCount : Nat) : Nat :=
  if 2 <<< 12 < vts_0_size then frameDataCount else 0

/-- A chapter query element (the Range type alias of the source):
absent (None), a single chapter index, or an inclusive (start, end) pair
whose sides may each be absent. -/
inductive Range where
  | none
  | single (c : Int)
  | pair (s e : Option Int)
deriving DecidableEq, Repr

/-- The chapters argument of get_title: one query or a list of queries. -/
inductive Chapters where
  | one (r : Range)
  | many (rs : List Range)
deriving DecidableEq, Repr

/-- The return value of get_title: one clip or a list of clips. -/
inductive TitleResult (α : Type) where
  | clip (c : List α)
  | clips (cs : List (List α))
deriving DecidableEq, Repr

/-- Selection step of get_title: a title index picks that title's boundary
list and sub-clip (Python list indexing, so negative indices and
IndexErrors apply); no index picks the joined chapters and clip. -/
def titleSelect (res : SplitTitlesResult α) (clip_index : Option Int) :
    Option (List Int × List α) :=
  match clip_index with
  | Option.none => some (res.joined_chapters, res.joined_clip)
  | some ci =>
    match pyGet res.split_chapters ci, pyGet res.split_clips ci with
    | some r, some c => some (r, c)
    | _, _ => Option.none

/-- Frame bounds of a single-integer chapter query c, mirroring get_title:
start,end initialised to ranges[0],ranges[-1], then the four branches. -/
def singleBounds (ranges : List Int) (c : Int) : Option (Int × Int) := do
  let rlength : Int := ranges.length
  let s0 ← pyGet ranges 0
  let e0 ← pyGet ranges (-1)
  if c = rlength - 1 then
    let s ← pyGet ranges (-2)
    pure (s, e0)
  else if c = 0 then
    let e ← pyGet ranges 1
    pure (s0, e)
  else if c < 0 then
    let s ← pyGet ranges (rlength - 1 + c)
    let e ← pyGet ranges (rlength + c)
    pure (s, e)
  else
    let s ← pyGet ranges c
    let e ← pyGet ranges (c + 1)
    pure (s, e)

/-- Frame bounds of a (start, end) pair query, mirroring get_title: absent
start is 0, negative start is rlength-1+start; absent end is rlength-1,
negative end is rlength-1+end, non-negative end is inclusive (+1). -/
def pairBounds (ranges : List Int) (s0 e0 : Option Int) : Option (Int × Int) := do
  let rlength : Int := ranges.length
  let s : Int :=
    match s0 with
    | Option.none => 0
    | some sv => if sv < 0 then rlength - 1 + sv else sv
  let e : Int :=
    match e0 with
    | Option.none => rlength - 1
    | some ev => if ev < 0 then rlength - 1 + ev else ev + 1
  let sv ← pyGet ranges s
  let ev ← pyGet ranges e
  pure (sv, ev)

/-- Resolve one query element against the selected boundary list and clip. -/
def resolveRange (ranges : List Int) (clip : List α) : Range → Option (List α)
  | Range.none => some clip
  | Range.single c => (singleBounds ranges c).map (fun se => pySlice clip se.1 se.2)
  | Range.pair s e => (pairBounds ranges s e).map (fun se => pySlice clip se.1 se.2)

/-- get_title: select a title (or the joined result) and resolve the chapter
query; a list of queries is resolved element-wise against the same title. -/
def get_title (res : SplitTitlesResult α) (clip_index : Option Int)
    (chapters : Chapters) : Option (TitleResult α) :=
  match titleSelect res clip_index with
  | Option.none => Option.none
  | some rc =>
    match chapters with
    | Chapters.one r => (resolveRange rc.1 rc.2 r).map TitleResult.clip
    | Chapters.many rs => (rs.mapM (resolveRange rc.1 rc.2)).map TitleResult.clips

/-- Shared demo result: the split of a 300-frame clip with a single title
whose chapter boundaries are [0, 100, 200, 300] and no menu. -/
def demoRes : SplitTitlesResult Nat :=
  split_titles (List.range 300) [[0, 100, 200, 300]] 0 false

/-- Claim C1 (counterexample): on the correction scenario with true frame
count 250, boundaries [[0, 100, 300]], no menu, in strict mode the
regenerated joined chapter boundaries are [0, 100, 251]: the synthetic
boundary 250 - 0 - 1 + 0 + 2 = 251 exceeds the true frame count 250, so the
claimed bound 250 fails. -/
theorem C1_counterexample :
    (split_titles (List.range 250) [[0, 100, 300]] 0 true).joined_chapters =
      [0, 100, 251] ∧
    ¬ ∀ x ∈ (split_titles (List.range 250) [[0, 100, 300]] 0 true).joined_chapters,
        x ≤ 250 := by
  refine ⟨rfl, ?_⟩
  decide

/-- Claim C1 (amended): in strict mode, given a single title with chapter
boundaries [0, 100, 300], no menu, and true frame count 250, the correction
pass replaces the overflowing boundary 300 by 250 - 0 - 1 + 0 + 2 = 251, and
the regenerated split/joined chapter boundaries never exceed 251 (one frame
beyond the true frame count); the regenerated joined clip itself is clamped
to exactly 250 frames. -/
theorem C1_amended_correction :
    (split_titles (List.range 250) [[0, 100, 300]] 0 true).split_chapters =
      [[0, 100, 251]] ∧
    (split_titles (List.range 250) [[0, 100, 300]] 0 true).joined_chapters =
      [0, 100, 251] ∧
    (∀ x ∈ (split_titles (List.range 250) [[0, 100, 300]] 0 true).joined_chapters,
      x ≤ 251) ∧
    (split_titles (List.range 250) [[0, 100, 300]] 0 true).joined_clip.length = 250 := by
  refine ⟨rfl, rfl, ?_, rfl⟩
  decide

/-- Claim C2 (counterexample): against boundaries [0, 100, 200, 300], the
pair query (1, -1) resolves to the frame range [100, 200) (the negative end
becomes boundary index rlength - 1 + (-1) = 2), not to the claimed
[100, 300). -/
theorem C2_counterexample :
    get_title demoRes Option.none (Chapters.one (Range.pair (some 1) (some (-1)))) =
      some (TitleResult.clip (pySlice (List.range 300) 100 200)) ∧
    pySlice (List.range 300) 100 200 ≠ pySlice (List.range 300) 100 300 := by
  refine ⟨rfl, ?_⟩
  decide

/-- Claim C2 (amended): for a chapter-range query with pair (1, -1) against
boundaries [0, 100, 200, 300], the resolver returns the frame range
[100, 200): the negative end -1 resolves to boundary index
rlength - 1 + (-1) = 2, the start of the last chapter, not through its
end. -/
theorem C2_amended_range_query :
    get_title demoRes Option.none (Chapters.one (Range.pair (some 1) (some (-1)))) =
      some (TitleResult.clip (pySlice (List.range 300) 100 200)) := rfl

/-- Claim C4 (counterexample): with an empty IFO file list, get_ifo_info does
not raise any error; it returns successfully. -/
theorem C4_counterexample : (get_ifo_info []).isOk = true := rfl

/-- Claim C4 (amended): if the list of IFO files found for a mount path is
empty, chapter extraction raises no error: it returns a default result with
an empty chapters list, fps 30000/1001 and the multiple-IFO flag false. -/
theorem C4_amended_empty_ifo :
    get_ifo_info [] = Except.ok ⟨[], ⟨30000, 1001⟩, false⟩ := rfl

/-- Claim C5: for boundaries [0, 100, 200, 300], a single-integer chapter
query c resolves as: c = -1 gives [200, 300); c = 0 gives [0, 100); c = 3
(the last boundary index) gives [200, 300); and for 0 < c < 3 the result is
[boundaries[c], boundaries[c+1]). -/
theorem C5_single_chapter_resolution :
    get_title demoRes Option.none (Chapters.one (Range.single (-1))) =
      some (TitleResult.clip (pySlice (List.range 300) 200 300)) ∧
    get_title demoRes Option.none (Chapters.one (Range.single 0)) =
      some (TitleResult.clip (pySlice (List.range 300) 0 100)) ∧
    get_title demoRes Option.none (Chapters.one (Range.single 3)) =
      some (TitleResult.clip (pySlice (List.range 300) 200 300)) ∧
    ∀ c : Int, 0 < c → c < 3 →
      get_title demoRes Option.none (Chapters.one (Range.single c)) =
        (do
          let s ← pyGet [(0 : Int), 100, 200, 300] c
          let e ← pyGet [(0 : Int), 100, 200, 300] (c + 1)
          pure (TitleResult.clip (pySlice (List.range 300) s e))) := by
  refine ⟨rfl, rfl, rfl, ?_⟩
  intro c h1 h2
  have hc : c = 1 ∨ c = 2 := by omega
  rcases hc with rfl | rfl <;> rfl

/-- Claim C5 (witness): the general branch at c = 1 gives [100, 200). -/
theorem C5_witness :
    get_title demoRes Option.none (Chapters.one (Range.single 1)) =
      some (TitleResult.clip (pySlice (List.range 300) 100 200)) := by
  have h := C5_single_chapter_resolution.2.2.2 1 (by norm_num) (by norm_num)
  exact h.trans rfl

lemma stepProg_error_msg (p : ProgramChain) (e : String)
    (hne : p.playback_times ≠ []) (h : stepProg p = Except.error e) :
    e = "IsoFile: No VFR allowed!" := by
  unfold stepProg at h
  cases hm : p.playback_times.map (fun pb => pb.fps) with
  | nil => exact absurd (List.map_eq_nil_iff.mp hm) hne
  | cons c cs =>
    rw [hm] at h
    by_cases hall : ((c :: cs).all fun d => c = d) = true
    · simp [hall] at h
    · simp [hall] at h
      exact h.symm

lemma stepProg_vfr (p : ProgramChain)
    (hvfr : ∃ p1 ∈ p.playback_times, ∃ p2 ∈ p.playback_times, p1.fps ≠ p2.fps) :
    stepProg p = Except.error "IsoFile: No VFR allowed!" := by
  obtain ⟨p1, hp1, p2, hp2, hne⟩ := hvfr
  cases hm : p.playback_times.map (fun pb => pb.fps) with
  | nil =>
    have : p.playback_times = [] := List.map_eq_nil_iff.mp hm
    rw [this] at hp1
    exact absurd hp1 (List.not_mem_nil p1)
  | cons c cs =>
    have hall : ((c :: cs).all fun d => c = d) = false := by
      by_contra hcon
      have htrue : ((c :: cs).all fun d => c = d) = true := by
        cases h2 : ((c :: cs).all fun d => c = d)
        · exact absurd h2 hcon
        · rfl
      have hforall := List.all_eq_true.mp htrue
      have h1 : p1.fps ∈ c :: cs := by
        rw [← hm]; exact List.mem_map_of_mem _ hp1
      have h2 : p2.fps ∈ c :: cs := by
        rw [← hm]; exact List.mem_map_of_mem _ hp2
      have e1 := of_decide_eq_true (hforall _ h1)
      have e2 := of_decide_eq_true (hforall _ h2)
      exact hne (e1 ▸ e2 ▸ rfl)
    simp [stepProg, hm, hall]

lemma processChains_error_of_mem (l : List ProgramChain) (prog : ProgramChain)
    (hmem : prog ∈ l)
    (herr : stepProg prog = Except.error "IsoFile: No VFR allowed!")
    (hne : ∀ p ∈ l, p.playback_times ≠ []) :
    ∀ fps, processChains l fps = Except.error "IsoFile: No VFR allowed!" := by
  induction l with
  | nil => exact absurd hmem (List.not_mem_nil prog)
  | cons p rest ih =>
    intro fps
    cases hs : stepProg p with
    | error e =>
      have := stepProg_error_msg p e (hne p (List.mem_cons_self p rest)) hs
      simp [processChains, hs, this]
    | ok pr =>
      have hprog : prog ∈ rest := by
        rcases List.mem_cons.mp hmem with rfl | h
        · rw [hs] at herr; exact absurd herr (by simp)
        · exact h
      have hrec := ih hprog (fun q hq => hne q (List.mem_cons_of_mem p hq)) pr.1
      obtain ⟨fps2, ch⟩ := pr
      simp [processChains, hs, hrec]

/-- Claim C7: for any processed program chain whose playback times carry two
distinct frame-rate codes (all chains having at least one playback time),
chapter extraction fails with the VFR error and produces no chapter
boundaries for any title. -/
theorem C7_vfr_error (ifoFiles : List (List ProgramChain)) (prog : ProgramChain)
    (hmem : prog ∈ programChains ifoFiles)
    (hne : ∀ p ∈ programChains ifoFiles, p.playback_times ≠ [])
    (hvfr : ∃ p1 ∈ prog.playback_times, ∃ p2 ∈ prog.playback_times, p1.fps ≠ p2.fps) :
    get_ifo_info ifoFiles = Except.error "IsoFile: No VFR allowed!" ∧
    ∀ info, get_ifo_info ifoFiles ≠ Except.ok info := by
  have herr := processChains_error_of_mem (programChains ifoFiles) prog hmem
    (stepProg_vfr prog hvfr) hne ⟨30000, 1001⟩
  have hmain : get_ifo_info ifoFiles = Except.error "IsoFile: No VFR allowed!" := by
    unfold get_ifo_info
    rw [herr]
  refine ⟨hmain, fun info hinfo => ?_⟩
  rw [hmain] at hinfo
  exact Except.noConfusion hinfo

/-- Claim C7 (witness): a single chain mixing frame-rate codes 1 and 3. -/
theorem C7_witness :
    get_ifo_info [[⟨[⟨0, 0, 0, 0, 1⟩, ⟨0, 0, 0, 0, 3⟩]⟩]] =
      Except.error "IsoFile: No VFR allowed!" :=
  (C7_vfr_error [[⟨[⟨0, 0, 0, 0, 1⟩, ⟨0, 0, 0, 0, 3⟩]⟩]]
    ⟨[⟨0, 0, 0, 0, 1⟩, ⟨0, 0, 0, 0, 3⟩]⟩ (by decide) (by decide) (by decide)).1

lemma processChains_ok_mem :
    ∀ (l : List ProgramChain) (fps0 f : Fraction) (chs : List (List Int)),
    processChains l fps0 = Except.ok (f, chs) →
    ∀ ch ∈ chs, ∃ prog ∈ l, ∃ fr, stepProg prog = Except.ok (fr, ch)
  | [], fps0, f, chs, h => by
    simp only [processChains] at h
    obtain ⟨-, rfl⟩ : f = fps0 ∧ chs = [] := by
      injection h with h2
      injection h2 with h3 h4
      exact ⟨h3.symm, h4.symm⟩
    intro ch hch
    exact absurd hch (List.not_mem_nil ch)
  | p :: rest, fps0, f, chs, h => by
    unfold processChains at h
    cases hs : stepProg p with
    | error e => rw [hs] at h; exact Except.noConfusion h
    | ok pr =>
      obtain ⟨fps2, ch0⟩ := pr
      rw [hs] at h
      dsimp only at h
      cases hr : processChains rest fps2 with
      | error e => rw [hr] at h; exact Except.noConfusion h
      | ok qr =>
        obtain ⟨fpsF, chs2⟩ := qr
        rw [hr] at h
        dsimp only at h
        have hfc : f = fpsF ∧ chs = ch0 :: chs2 := by
          injection h with h2
          injection h2 with h3 h4
          exact ⟨h3.symm, h4.symm⟩
        intro ch hch
        rw [hfc.2] at hch
        rcases List.mem_cons.mp hch with rfl | hch2
        · exact ⟨p, List.mem_cons_self p rest, fps2, hs⟩
        · obtain ⟨prog, hpm, fr, hfr⟩ := processChains_ok_mem rest fps2 fpsF chs2 hr ch hch2
          exact ⟨prog, List.mem_cons_of_mem p hpm, fr, hfr⟩

lemma stepProg_ok_shape (prog : ProgramChain) (fr : Fraction) (ch : List Int)
    (h : stepProg prog = Except.ok (fr, ch)) :
    ∃ raw : Int, (raw = 25 ∨ raw = 30) ∧
      ch = 0 :: frameOffsets raw prog.playback_times := by
  unfold stepProg at h
  cases hm : prog.playback_times.map (fun pb => pb.fps) with
  | nil => rw [hm] at h; exact Except.noConfusion h
  | cons c cs =>
    rw [hm] at h
    dsimp only at h
    by_cases hall : ((c :: cs).all fun d => c = d) = true
    · rw [if_pos hall] at h
      refine ⟨if (FRAMERATE c).num = 30000 then 30 else 25, ?_, ?_⟩
      · by_cases h30 : (FRAMERATE c).num = 30000
        · rw [if_pos h30]; exact Or.inr rfl
        · rw [if_neg h30]; exact Or.inl rfl
      · injection h with h2
        injection h2 with h3 h4
        exact h4.symm
    · rw [if_neg hall] at h
      exact Except.noConfusion h

lemma frameOffsets_nonneg (raw : Int) (pts : List PlaybackTime)
    (hraw : 0 ≤ raw)
    (hpts : ∀ pt ∈ pts, 0 ≤ pt.hours ∧ 0 ≤ pt.minutes ∧ 0 ≤ pt.seconds ∧ 0 ≤ pt.frames) :
    ∀ y ∈ frameOffsets raw pts, 0 ≤ y := by
  intro y hy
  unfold frameOffsets at hy
  obtain ⟨pb, hpb, rfl⟩ := List.mem_map.mp hy
  obtain ⟨h1, h2, h3, h4⟩ := hpts pb hpb
  have hsum : 0 ≤ pb.hours * 3600 + pb.minutes * 60 + pb.seconds := by linarith
  have := mul_nonneg hsum hraw
  linarith

lemma accFrom_chain : ∀ (l : List Int) (t : Int), (∀ y ∈ l, 0 ≤ y) →
    List.Chain' (· ≤ ·) (t :: accFrom t l)
  | [], t, _ => List.chain'_singleton t
  | x :: xs, t, h => by
    rw [show accFrom t (x :: xs) = (t + x) :: accFrom (t + x) xs from rfl,
      List.chain'_cons]
    exact ⟨le_add_of_nonneg_right (h x (List.mem_cons_self x xs)),
      accFrom_chain xs (t + x) (fun y hy => h y (List.mem_cons_of_mem x hy))⟩

lemma accumulate_zero_cons (l : List Int) :
    accumulate (0 :: l) = 0 :: accFrom 0 l := by
  simp [accumulate, accFrom]

lemma mem_programChains (ifoFiles : List (List ProgramChain)) (prog : ProgramChain)
    (h : prog ∈ programChains ifoFiles) : ∃ pgci ∈ ifoFiles, prog ∈ pgci := by
  unfold programChains at h
  obtain ⟨l, hl, hpl⟩ := List.mem_flatten.mp h
  obtain ⟨pgci, hpg, rfl⟩ := List.mem_map.mp hl
  exact ⟨pgci, hpg, List.mem_of_mem_drop hpl⟩

/-- Claim C8: whenever get_ifo_info succeeds and every playback-time record
has non-negative hours, minutes, seconds and frames, every produced chapter
boundary list (per-playback-time offsets with a prepended 0, then the
running cumulative sum) starts at 0 and is non-decreasing. -/
theorem C8_boundaries_monotone (ifoFiles : List (List ProgramChain)) (info : IFOFileInfo)
    (hok : get_ifo_info ifoFiles = Except.ok info)
    (hnn : ∀ pgci ∈ ifoFiles, ∀ prog ∈ pgci, ∀ pt ∈ prog.playback_times,
      0 ≤ pt.hours ∧ 0 ≤ pt.minutes ∧ 0 ≤ pt.seconds ∧ 0 ≤ pt.frames) :
    ∀ ch ∈ info.chapters, ch.head? = some 0 ∧ List.Chain' (· ≤ ·) ch := by
  unfold get_ifo_info at hok
  cases hpc : processChains (programChains ifoFiles) ⟨30000, 1001⟩ with
  | error e => rw [hpc] at hok; exact Except.noConfusion hok
  | ok pr =>
    obtain ⟨fps, chs⟩ := pr
    rw [hpc] at hok
    have hinfo : info.chapters = chs.map accumulate := by
      injection hok with h2
      rw [← h2]
    intro ch hch
    rw [hinfo] at hch
    obtain ⟨ch0, hch0, rfl⟩ := List.mem_map.mp hch
    obtain ⟨prog, hpmem, fr, hsp⟩ := processChains_ok_mem _ _ _ _ hpc ch0 hch0
    obtain ⟨raw, hraw, rfl⟩ := stepProg_ok_shape prog fr ch0 hsp
    obtain ⟨pgci, hpg, hppg⟩ := mem_programChains ifoFiles prog hpmem
    have hnn2 := hnn pgci hpg prog hppg
    have hraw0 : (0 : Int) ≤ raw := by rcases hraw with rfl | rfl <;> norm_num
    have hoff := frameOffsets_nonneg raw prog.playback_times hraw0 hnn2
    rw [accumulate_zero_cons]
    exact ⟨rfl, accFrom_chain _ 0 hoff⟩

/-- Claim C8 (witness): one chain with one playback time of 1 second and 5
frames at 29.97 fps yields boundaries [0, 35]. -/
theorem C8_witness :
    ([(0 : Int), 35].head? = some (0 : Int)) ∧ List.Chain' (· ≤ ·) [(0 : Int), 35] :=
  C8_boundaries_monotone [[⟨[⟨0, 0, 1, 5, 3⟩]⟩]]
    ⟨[[0, 35]], ⟨30000, 1001⟩, false⟩ rfl (by decide) [0, 35] (by decide)

lemma set_getD_self : ∀ (l : List β) (i : Nat) (v d : β),
    i < l.length → (l.set i v).getD i d = v
  | [], i, _, _, h => absurd h (by simp)
  | _ :: _, 0, _, _, _ => by
    rw [List.set_cons_zero, List.getD_cons_zero]
  | a :: l, i + 1, v, d, h => by
    rw [List.set_cons_succ, List.getD_cons_succ]
    exact set_getD_self l i v d (by simpa using h)

lemma set_getD_ne : ∀ (l : List β) (i k : Nat) (v d : β),
    i ≠ k → (l.set i v).getD k d = l.getD k d
  | [], _, _, _, _, _ => rfl
  | _ :: _, 0, 0, _, _, h => absurd rfl h
  | a :: l, 0, k + 1, v, d, _ => by
    rw [List.set_cons_zero, List.getD_cons_succ, List.getD_cons_succ]
  | a :: l, i + 1, 0, v, d, _ => by
    rw [List.set_cons_succ, List.getD_cons_zero, List.getD_cons_zero]
  | a :: l, i + 1, k + 1, v, d, h => by
    rw [List.set_cons_succ, List.getD_cons_succ, List.getD_cons_succ]
    exact set_getD_ne l i k v d (fun hik => h (by rw [hik]))

lemma setZeroOne_length : ∀ (m : Nat) (arr : List (List Int)) (a : Nat),
    (setZeroOne arr a m).length = arr.length
  | 0, _, _ => rfl
  | m + 1, arr, a => by
    rw [show setZeroOne arr a (m + 1) = setZeroOne (arr.set a [0, 1]) (a + 1) m from rfl,
      setZeroOne_length m _ _, List.length_set]

lemma setZeroOne_getD_lt : ∀ (m : Nat) (arr : List (List Int)) (a k : Nat),
    k < a → (setZeroOne arr a m).getD k [] = arr.getD k []
  | 0, _, _, _, _ => rfl
  | m + 1, arr, a, k, h => by
    rw [show setZeroOne arr a (m + 1) = setZeroOne (arr.set a [0, 1]) (a + 1) m from rfl,
      setZeroOne_getD_lt m _ _ _ (by omega), set_getD_ne arr a k _ _ (by omega)]

lemma setZeroOne_getD_mem : ∀ (m : Nat) (arr : List (List Int)) (a k : Nat),
    a ≤ k → k < a + m → k < arr.length → (setZeroOne arr a m).getD k [] = [0, 1]
  | 0, _, a, k, _, h2, _ => absurd h2 (by omega)
  | m + 1, arr, a, k, h1, h2, h3 => by
    rw [show setZeroOne arr a (m + 1) = setZeroOne (arr.set a [0, 1]) (a + 1) m from rfl]
    rcases Nat.eq_or_lt_of_le h1 with rfl | hlt
    · rw [setZeroOne_getD_lt m _ _ _ (by omega), set_getD_self arr a [0, 1] [] h3]
    · exact setZeroOne_getD_mem m _ (a + 1) k hlt (by omega)
        (by rw [List.length_set]; exact h3)

lemma correctTitle_keep : ∀ (ch : List Int) (offset : Int) (n : Nat) (f : Int),
    (∀ y ∈ ch, y + offset < (n : Int)) → correctTitle ch offset n f = (ch, false)
  | [], _, _, _, _ => rfl
  | x :: rest, offset, n, f, h => by
    have hx := h x (List.mem_cons_self x rest)
    have hr := correctTitle_keep rest offset n f
      (fun y hy => h y (List.mem_cons_of_mem x hy))
    simp [correctTitle, hx, hr]

lemma correctTitle_break : ∀ (u : List Int) (x : Int) (v : List Int)
    (offset : Int) (n : Nat) (f : Int),
    (∀ y ∈ u, y + offset < (n : Int)) → ¬(x + offset < (n : Int)) →
    correctTitle (u ++ x :: v) offset n f = (u ++ [f], true)
  | [], x, v, offset, n, f, _, hx => by simp [correctTitle, hx]
  | y :: u, x, v, offset, n, f, hu, hx => by
    have hy := hu y (List.mem_cons_self y u)
    have hr := correctTitle_break u x v offset n f
      (fun z hz => hu z (List.mem_cons_of_mem y hz)) hx
    simp [correctTitle, hy, hr]

lemma correctOuter_skip (n menu total : Nat) (scLast : List Int) :
    ∀ (K : Nat) (L : List (List Int)) (i0 : Nat) (offset : Int) (arr : List (List Int)),
    K ≤ L.length →
    (∀ m, m < K → ∀ y ∈ L.getD m [],
      y + (offset + ((L.take m).map (fun ch => ch.getLastD 0)).sum) < (n : Int)) →
    ∃ arr2, arr2.length = arr.length ∧
      correctOuter n menu total scLast L i0 offset arr =
        correctOuter n menu total scLast (L.drop K) (i0 + K)
          (offset + ((L.take K).map (fun ch => ch.getLastD 0)).sum) arr2
  | 0, L, i0, offset, arr, _, _ => ⟨arr, rfl, by simp⟩
  | K + 1, L, i0, offset, arr, hK, hnb => by
    match L with
    | [] => simp at hK
    | ch :: rest =>
      have hch : ∀ y ∈ ch, y + offset < (n : Int) := by
        have := hnb 0 (Nat.succ_pos K)
        simpa using this
      have hct := correctTitle_keep ch offset n
        ((n : Int) - (menu : Int) - (total : Int) + (i0 : Int) + 2) hch
      have step : correctOuter n menu total scLast (ch :: rest) i0 offset arr =
          correctOuter n menu total scLast rest (i0 + 1) (offset + ch.getLastD 0)
            (arr.set i0 ch) := by
        simp [correctOuter, hct]
      obtain ⟨arr2, hlen, heq⟩ := correctOuter_skip n menu total scLast K rest (i0 + 1)
        (offset + ch.getLastD 0) (arr.set i0 ch) (by simpa using hK)
        (by
          intro m hm y hy
          have h2 := hnb (m + 1) (by omega) y (by simpa using hy)
          simp only [List.take_succ_cons, List.map_cons, List.sum_cons] at h2
          linarith)
      refine ⟨arr2, by rw [hlen, List.length_set], ?_⟩
      rw [step, heq]
      have h1 : i0 + 1 + K = i0 + (K + 1) := by omega
      have h2 : offset + ch.getLastD 0 + ((rest.take K).map (fun c => c.getLastD 0)).sum
          = offset + (((ch :: rest).take (K + 1)).map (fun c => c.getLastD 0)).sum := by
        simp only [List.take_succ_cons, List.map_cons, List.sum_cons]
        ring
      rw [h1, h2]
      rfl

/-- Claim C3: in strict mode, given that every boundary of the titles before
index i stays below the true total (with the running offset of consumed
frames) and that the boundary x at title i is the first to meet or exceed it,
the correction pass replaces it (and the rest of title i) by the synthetic
boundary trueTotal - menuLength - titleCount + i + 2; every subsequent
non-menu title's boundary list becomes [0, 1]; and when a menu segment exists
its (final) boundary list is kept exactly as before correction. -/
theorem C3_strict_correction (sc : List (List Int)) (n menu : Nat) (i : Nat)
    (u v : List Int) (x : Int)
    (hlen : i < sc.length)
    (hui : sc.getD i [] = u ++ x :: v)
    (hpre : ∀ m, m < i → ∀ y ∈ sc.getD m [], y + chapterOffset sc m < (n : Int))
    (hu : ∀ y ∈ u, y + chapterOffset sc i < (n : Int))
    (hx : (n : Int) ≤ x + chapterOffset sc i)
    (hmenu : 0 < menu → i < sc.length - 1) :
    (correctChapters sc n menu).getD i [] =
      u ++ [(n : Int) - (menu : Int) - (sc.length : Int) + (i : Int) + 2] ∧
    (∀ k, i < k → k < sc.length - (if 0 < menu then 1 else 0) →
      (correctChapters sc n menu).getD k [] = [0, 1]) ∧
    (0 < menu →
      (correctChapters sc n menu).getD (sc.length - 1) [] = sc.getLastD []) := by
  obtain ⟨arr2, hlen2, heq⟩ := correctOuter_skip n menu sc.length (sc.getLastD []) i sc 0 0
    (List.replicate sc.length []) (le_of_lt hlen)
    (by
      intro m hm y hy
      have := hpre m hm y hy
      simpa [chapterOffset] using this)
  have hdrop : sc.drop i = (u ++ x :: v) :: sc.drop (i + 1) := by
    rw [List.drop_eq_getElem_cons hlen, ← List.getD_eq_getElem sc [] hlen, hui]
  rw [hdrop] at heq
  simp only [Nat.zero_add, zero_add] at heq
  have hsum : ((sc.take i).map (fun ch => ch.getLastD 0)).sum = chapterOffset sc i := rfl
  rw [hsum] at heq
  have hct := correctTitle_break u x v (chapterOffset sc i) n
    ((n : Int) - (menu : Int) - (sc.length : Int) + (i : Int) + 2) hu (not_lt.mpr hx)
  have hstep : correctChapters sc n menu =
      (if 0 < menu then
        (setZeroOne (arr2.set i
            (u ++ [(n : Int) - (menu : Int) - (sc.length : Int) + (i : Int) + 2]))
          (i + 1) ((sc.length - (if 0 < menu then 1 else 0)) - (i + 1))).set
          (sc.length - 1) (sc.getLastD [])
      else
        setZeroOne (arr2.set i
            (u ++ [(n : Int) - (menu : Int) - (sc.length : Int) + (i : Int) + 2]))
          (i + 1) ((sc.length - (if 0 < menu then 1 else 0)) - (i + 1))) := by
    rw [correctChapters, heq]
    simp [correctOuter, hct]
  have harrlen : arr2.length = sc.length := by
    rw [hlen2, List.length_replicate]
  have hAlen : (arr2.set i
      (u ++ [(n : Int) - (menu : Int) - (sc.length : Int) + (i : Int) + 2])).length
      = sc.length := by
    rw [List.length_set, harrlen]
  have hBlen : (setZeroOne (arr2.set i
      (u ++ [(n : Int) - (menu : Int) - (sc.length : Int) + (i : Int) + 2]))
      (i + 1) ((sc.length - (if 0 < menu then 1 else 0)) - (i + 1))).length
      = sc.length := by
    rw [setZeroOne_length, hAlen]
  refine ⟨?_, ?_, ?_⟩
  · by_cases hm0 : 0 < menu
    · rw [hstep, if_pos hm0, set_getD_ne _ _ _ _ _ (by have := hmenu hm0; omega),
        setZeroOne_getD_lt _ _ _ _ (by omega),
        set_getD_self _ _ _ _ (by rw [harrlen]; exact hlen)]
    · rw [hstep, if_neg hm0, setZeroOne_getD_lt _ _ _ _ (by omega),
        set_getD_self _ _ _ _ (by rw [harrlen]; exact hlen)]
  · intro k hik hk
    by_cases hm0 : 0 < menu
    · rw [if_pos hm0] at hk
      rw [hstep, if_pos hm0, set_getD_ne _ _ _ _ _ (by omega),
        setZeroOne_getD_mem _ _ _ _ (by omega) (by rw [if_pos hm0]; omega)
          (by rw [hAlen]; omega)]
    · rw [if_neg hm0] at hk
      rw [hstep, if_neg hm0,
        setZeroOne_getD_mem _ _ _ _ (by omega) (by rw [if_neg hm0]; omega)
          (by rw [hAlen]; omega)]
  · intro hm0
    rw [hstep, if_pos hm0, set_getD_self _ _ _ _ (by rw [hBlen]; omega)]

/-- Claim C3 (witness): boundaries [[0,10,30],[0,5],[0,1]] (menu entry last),
true total 12, menu length 1: title 0 breaks at boundary 30, which becomes
12 - 1 - 3 + 0 + 2 = 10; title 1 becomes [0, 1]; the menu entry is kept. -/
theorem C3_witness :
    (correctChapters [[0, 10, 30], [0, 5], [0, 1]] 12 1).getD 0 [] = [0, 10, 10] ∧
    (correctChapters [[0, 10, 30], [0, 5], [0, 1]] 12 1).getD 1 [] = [0, 1] ∧
    (correctChapters [[0, 10, 30], [0, 5], [0, 1]] 12 1).getD 2 [] = [0, 1] := by
  obtain ⟨h1, h2, h3⟩ := C3_strict_correction [[0, 10, 30], [0, 5], [0, 1]] 12 1 0
    [0, 10] [] 30 (by decide) rfl
    (by intro m hm; omega)
    (by decide) (by decide) (by intro h; decide)
  refine ⟨?_, ?_, ?_⟩
  · rw [h1]; rfl
  · have := h2 1 (by decide) (by decide)
    exact this
  · simpa using h3 (by decide)

/-- Claim C9: in default (non-strict) mode, when the joined result's final
chapter boundary exceeds the true decoded frame count, split_titles only
sets the warning and returns the split clips, split chapters, joined clip
and joined chapters exactly as first computed. -/
theorem C9_nonstrict_warning (clip : List Nat) (sc : List (List Int)) (menu : Nat)
    (h : (clip.length : Int) <
      (gen_joined_chapts (splitChaptersClips clip sc menu).1).getLastD 0) :
    split_titles clip sc menu false =
      { split_clips := (splitChaptersClips clip sc menu).2
        split_chapters := applyAlias (splitChaptersClips clip sc menu).1
          (gen_joined_chapts (splitChaptersClips clip sc menu).1)
        joined_clip := gen_joined_clip (splitChaptersClips clip sc menu).2
        joined_chapters := gen_joined_chapts (splitChaptersClips clip sc menu).1
        broken_warning := true } := by
  simp only [split_titles]
  rw [if_pos h]
  rfl

/-- Claim C9 (witness): a 3-frame clip with declared boundaries [0, 5]
overflows; the non-strict result is the first-pass data plus the warning. -/
theorem C9_witness :
    split_titles [0, 1, 2] [[0, 5]] 0 false =
      ⟨[[0, 1, 2]], [[0, 5]], [0, 1, 2], [0, 5], true⟩ := by
  have h := C9_nonstrict_warning [0, 1, 2] [[0, 5]] 0 (by decide)
  exact h.trans (by decide)

lemma getLastD_append_singleton : ∀ (a : List Int) (b d : Int),
    (a ++ [b]).getLastD d = b
  | [], b, d => by simp
  | x :: xs, b, d => by
    rw [List.cons_append, List.getLastD_cons]
    exact getLastD_append_singleton xs b x

lemma getLastD_mem (l : List Int) (d : Int) (h : l ≠ []) : l.getLastD d ∈ l := by
  rcases List.eq_nil_or_concat l with rfl | ⟨l0, z, rfl⟩
  · exact absurd rfl h
  · rw [List.concat_eq_append, getLastD_append_singleton]
    exact List.mem_append_right l0 (List.mem_singleton_self z)

lemma joinStep_getLastD (acc ch : List Int)
    (hch : ∀ y ∈ ch, 0 ≤ y ∧ y ≤ ch.getLastD 0) :
    (joinStep acc ch).getLastD 0 = acc.getLastD 0 + ch.getLastD 0 := by
  unfold joinStep
  rcases List.eq_nil_or_concat ch with rfl | ⟨l0, z, rfl⟩
  · simp
  · rw [List.concat_eq_append] at hch ⊢
    by_cases hz : z = 0
    · subst hz
      have hall : ∀ y ∈ l0 ++ [(0 : Int)], y = 0 := by
        intro y hy
        have h2 := hch y hy
        rw [getLastD_append_singleton] at h2
        omega
      have hfil : (l0 ++ [(0 : Int)]).filter (fun r => decide (r ≠ 0)) = [] := by
        rw [List.filter_eq_nil_iff]
        intro a ha
        simp [hall a ha]
      rw [hfil]
      simp [getLastD_append_singleton]
    · have hfil : (l0 ++ [z]).filter (fun r => decide (r ≠ 0)) =
          l0.filter (fun r => decide (r ≠ 0)) ++ [z] := by
        rw [List.filter_append]
        simp [hz]
      rw [hfil, List.map_append,
        show List.map (fun r => r + acc.getLastD 0) [z] = [z + acc.getLastD 0] from rfl,
        ← List.append_assoc, getLastD_append_singleton, getLastD_append_singleton]
      ring

lemma foldl_joinStep_getLastD : ∀ (rest : List (List Int)) (acc : List Int),
    (∀ ch ∈ rest, ∀ y ∈ ch, 0 ≤ y ∧ y ≤ ch.getLastD 0) →
    (rest.foldl joinStep acc).getLastD 0 =
      acc.getLastD 0 + (rest.map (fun ch => ch.getLastD 0)).sum
  | [], acc, _ => by simp
  | ch :: rest, acc, h => by
    rw [List.foldl_cons, foldl_joinStep_getLastD rest (joinStep acc ch)
        (fun c hc => h c (List.mem_cons_of_mem ch hc)),
      joinStep_getLastD acc ch (h ch (List.mem_cons_self ch rest)),
      List.map_cons, List.sum_cons]
    ring

lemma gen_joined_chapts_getLastD (sc : List (List Int))
    (h : ∀ ch ∈ sc, ∀ y ∈ ch, 0 ≤ y ∧ y ≤ ch.getLastD 0) :
    (gen_joined_chapts sc).getLastD 0 = (sc.map (fun ch => ch.getLastD 0)).sum := by
  match sc with
  | [] => simp [gen_joined_chapts]
  | c0 :: rest =>
    rw [show gen_joined_chapts (c0 :: rest) = rest.foldl joinStep c0 from rfl,
      foldl_joinStep_getLastD rest c0 (fun c hc => h c (List.mem_cons_of_mem c0 hc)),
      List.map_cons, List.sum_cons]

lemma foldl_append_length : ∀ (rest : List (List α)) (acc : List α),
    (rest.foldl (fun a b => a ++ b) acc).length =
      acc.length + (rest.map List.length).sum
  | [], acc => by simp
  | c :: rest, acc => by
    rw [List.foldl_cons, foldl_append_length rest (acc ++ c), List.length_append,
      List.map_cons, List.sum_cons]
    omega

lemma gen_joined_clip_length (cs : List (List α)) :
    (gen_joined_clip cs).length = (cs.map List.length).sum := by
  match cs with
  | [] => rfl
  | c0 :: rest =>
    rw [show gen_joined_clip (c0 :: rest) = rest.foldl (fun a b => a ++ b) c0 from rfl,
      foldl_append_length rest c0, List.map_cons, List.sum_cons]

lemma pyIndex_le (n : Nat) (i : Int) : pyIndex n i ≤ n := by
  unfold pyIndex
  split <;> omega

lemma pyIndex_of_nonneg_le (n : Nat) (i : Int) (h0 : 0 ≤ i) (hn : i ≤ (n : Int)) :
    pyIndex n i = i.toNat := by
  unfold pyIndex
  rw [if_neg (not_lt.mpr h0)]
  omega

lemma pyIndex_mono (n : Nat) (a b : Int) (h0 : 0 ≤ a) (hab : a ≤ b) :
    pyIndex n a ≤ pyIndex n b := by
  unfold pyIndex
  rw [if_neg (not_lt.mpr h0), if_neg (not_lt.mpr (le_trans h0 hab))]
  omega

lemma pySlice_length (xs : List β) (s e : Int) :
    (pySlice xs s e).length = pyIndex xs.length e - pyIndex xs.length s := by
  unfold pySlice
  rw [List.length_drop, List.length_take]
  have := pyIndex_le xs.length e
  omega

lemma chain_le_getLastD : ∀ (ds : List Int) (d : Int),
    List.Chain' (· ≤ ·) (d :: ds) → d ≤ ds.getLastD d
  | [], d, _ => le_refl d
  | e :: ds, d, h => by
    rw [List.chain'_cons] at h
    rw [List.getLastD_cons]
    exact le_trans h.1 (chain_le_getLastD ds e h.2)

lemma slice_telescope (clip1 : List β) : ∀ (ds : List Int) (d0 : Int),
    0 ≤ d0 → List.Chain' (· ≤ ·) (d0 :: ds) →
    ((((d0 :: ds).zip ds).map (fun se => pySlice clip1 se.1 se.2)).map List.length).sum
      = pyIndex clip1.length (ds.getLastD d0) - pyIndex clip1.length d0
  | [], d0, _, _ => by simp
  | d1 :: ds, d0, h0, hch => by
    rw [List.chain'_cons] at hch
    have h01 : d0 ≤ d1 := hch.1
    have h1 : (0 : Int) ≤ d1 := le_trans h0 h01
    have hlast : d1 ≤ ds.getLastD d1 := chain_le_getLastD ds d1 hch.2
    rw [List.zip_cons_cons, List.map_cons, List.map_cons, List.sum_cons,
      slice_telescope clip1 ds d1 h1 hch.2, pySlice_length, List.getLastD_cons]
    have m1 := pyIndex_mono clip1.length d0 d1 h0 h01
    have m2 := pyIndex_mono clip1.length d1 (ds.getLastD d1) h1 hlast
    have b1 := pyIndex_le clip1.length (ds.getLastD d1)
    dsimp only
    omega

lemma accFrom_getLastD : ∀ (l : List Int) (t : Int), (accFrom t l).getLastD t = t + l.sum
  | [], t => by simp [accFrom]
  | x :: xs, t => by
    rw [show accFrom t (x :: xs) = (t + x) :: accFrom (t + x) xs from rfl,
      List.getLastD_cons, accFrom_getLastD xs (t + x), List.sum_cons]
    ring

/-- Claim C6: whenever the merged chapter boundaries are in range (final
merged boundary at most the true decoded frame count, i.e. no correction
triggers) and each title's boundary list is non-empty with non-negative
entries bounded by its last entry, the joined clip's frame count equals the
sum of the per-title sub-clip frame counts, and the final merged boundary
equals that joined frame count. -/
theorem C6_join_sum (clip : List Nat) (sc : List (List Int)) (menu : Nat)
    (hch : ∀ ch ∈ sc, ch ≠ [] ∧ ∀ y ∈ ch, 0 ≤ y ∧ y ≤ ch.getLastD 0)
    (hnc : (gen_joined_chapts (splitChaptersClips clip sc menu).1).getLastD 0 ≤
      (clip.length : Int)) :
    (gen_joined_clip (splitChaptersClips clip sc menu).2).length =
      (((splitChaptersClips clip sc menu).2).map List.length).sum ∧
    (gen_joined_chapts (splitChaptersClips clip sc menu).1).getLastD 0 =
      ((gen_joined_clip (splitChaptersClips clip sc menu).2).length : Int) := by
  have hP2 : ∀ ch ∈ sc, ∀ y ∈ ch, 0 ≤ y ∧ y ≤ ch.getLastD 0 :=
    fun ch hc => (hch ch hc).2
  have hlnn : ∀ ch ∈ sc, (0 : Int) ≤ ch.getLastD 0 := by
    intro ch hc
    exact ((hch ch hc).2 _ (getLastD_mem ch 0 (hch ch hc).1)).1
  have hmapnn : ∀ y ∈ sc.map (fun ch => ch.getLastD 0), (0 : Int) ≤ y := by
    intro y hy
    obtain ⟨ch, hc, rfl⟩ := List.mem_map.mp hy
    exact hlnn ch hc
  have hSnn : (0 : Int) ≤ (sc.map (fun ch => ch.getLastD 0)).sum :=
    List.sum_nonneg hmapnn
  have hchain : List.Chain' (· ≤ ·)
      ((0 : Int) :: accFrom 0 (sc.map (fun ch => ch.getLastD 0))) :=
    accFrom_chain _ 0 hmapnn
  have hlastD : (accFrom 0 (sc.map (fun ch => ch.getLastD 0))).getLastD 0 =
      (sc.map (fun ch => ch.getLastD 0)).sum := by
    have := accFrom_getLastD (sc.map (fun ch => ch.getLastD 0)) 0
    simpa using this
  refine ⟨gen_joined_clip_length _, ?_⟩
  by_cases hm : menu = 0
  · subst hm
    have hfst : (splitChaptersClips clip sc 0).1 = sc := by
      simp [splitChaptersClips]
    have hsnd : (splitChaptersClips clip sc 0).2 =
        (((0 : Int) :: accFrom 0 (sc.map (fun ch => ch.getLastD 0))).zip
          (accFrom 0 (sc.map (fun ch => ch.getLastD 0)))).map
          (fun se => pySlice (clip.drop 0) se.1 se.2) := by
      simp [splitChaptersClips, accumulate_zero_cons]
    rw [hfst, gen_joined_chapts_getLastD sc hP2] at hnc ⊢
    rw [hsnd, gen_joined_clip_length,
      slice_telescope (clip.drop 0) _ 0 (le_refl 0) hchain, hlastD]
    have hlen0 : (clip.drop 0).length = clip.length := by simp
    rw [hlen0]
    rw [pyIndex_of_nonneg_le clip.length _ hSnn hnc,
      pyIndex_of_nonneg_le clip.length 0 (le_refl 0) (by positivity)]
    omega
  · have hfst : (splitChaptersClips clip sc menu).1 = sc ++ [[0, (menu : Int)]] := by
      simp [splitChaptersClips, hm]
    have hsnd : (splitChaptersClips clip sc menu).2 =
        ((((0 : Int) :: accFrom 0 (sc.map (fun ch => ch.getLastD 0))).zip
          (accFrom 0 (sc.map (fun ch => ch.getLastD 0)))).map
          (fun se => pySlice (clip.drop menu) se.1 se.2)) ++ [clip.take menu] := by
      simp [splitChaptersClips, hm, accumulate_zero_cons]
    have hmenuP : ∀ y ∈ [(0 : Int), (menu : Int)],
        0 ≤ y ∧ y ≤ [(0 : Int), (menu : Int)].getLastD 0 := by
      intro y hy
      rcases List.mem_cons.mp hy with rfl | hy2
      · exact ⟨le_refl 0, by simp [List.getLastD_cons]⟩
      · rw [List.mem_singleton.mp hy2]
        exact ⟨by positivity, by simp [List.getLastD_cons]⟩
    have hPall : ∀ ch ∈ sc ++ [[(0 : Int), (menu : Int)]],
        ∀ y ∈ ch, 0 ≤ y ∧ y ≤ ch.getLastD 0 := by
      intro ch hc
      rcases List.mem_append.mp hc with hc1 | hc2
      · exact hP2 ch hc1
      · rw [List.mem_singleton.mp hc2]
        exact hmenuP
    have hmerged : (gen_joined_chapts (sc ++ [[0, (menu : Int)]])).getLastD 0 =
        (sc.map (fun ch => ch.getLastD 0)).sum + (menu : Int) := by
      rw [gen_joined_chapts_getLastD _ hPall, List.map_append, List.sum_append]
      simp [List.getLastD_cons]
    rw [hfst, hmerged] at hnc ⊢
    have hmle : menu ≤ clip.length := by omega
    have hdroplen : ((clip.drop menu).length : Int) =
        (clip.length : Int) - (menu : Int) := by
      rw [List.length_drop]
      omega
    have hSle : (sc.map (fun ch => ch.getLastD 0)).sum ≤ ((clip.drop menu).length : Int) := by
      rw [hdroplen]
      omega
    rw [hsnd, gen_joined_clip_length, List.map_append, List.sum_append,
      slice_telescope (clip.drop menu) _ 0 (le_refl 0) hchain, hlastD,
      pyIndex_of_nonneg_le _ _ hSnn hSle,
      pyIndex_of_nonneg_le _ 0 (le_refl 0) (by positivity)]
    simp only [List.map_cons, List.map_nil, List.sum_cons, List.sum_nil,
      List.length_take]
    omega

/-- Claim C6 (witness): a 10-frame clip, titles [[0,3],[0,2,4]] and a
2-frame menu: the joined clip has 3 + 4 + 2 = 9 frames, matching both the
sum of the sub-clip lengths and the final merged boundary. -/
theorem C6_witness :
    (gen_joined_clip (splitChaptersClips (List.range 10) [[0, 3], [0, 2, 4]] 2).2).length =
      (((splitChaptersClips (List.range 10) [[0, 3], [0, 2, 4]] 2).2).map List.length).sum ∧
    (gen_joined_chapts (splitChaptersClips (List.range 10) [[0, 3], [0, 2, 4]] 2).1).getLastD 0 =
      ((gen_joined_clip (splitChaptersClips (List.range 10) [[0, 3], [0, 2, 4]] 2).2).length : Int) :=
  C6_join_sum (List.range 10) [[0, 3], [0, 2, 4]] 2 (by decide) (by decide)

/-- Claim C10: when the chapter query is absent (None), get_title returns the
entire selected sequence unsliced: the chosen title's sub-sequence when a
title index is given, otherwise the full joined sequence. -/
theorem C10_none_query (res : SplitTitlesResult Nat) :
    (get_title res Option.none (Chapters.one Range.none) =
      some (TitleResult.clip res.joined_clip)) ∧
    ∀ (i : Int) (rs : List Int) (sel : List Nat),
      pyGet res.split_chapters i = some rs →
      pyGet res.split_clips i = some sel →
      get_title res (some i) (Chapters.one Range.none) =
        some (TitleResult.clip sel) := by
  constructor
  · rfl
  · intro i rs sel h1 h2
    simp [get_title, titleSelect, h1, h2, resolveRange]

/-- Claim C10 (witness): title index 0 of the demo split returns its full
300-frame sub-sequence. -/
theorem C10_witness :
    get_title demoRes (some 0) (Chapters.one Range.none) =
      some (TitleResult.clip (List.range 300)) :=
  (C10_none_query demoRes).2 0 [0, 100, 200, 300] (List.range 300) rfl rfl

end ParseDVD
